import Mathlib

/-!
Shallow embedding of the Driver_USB repository in Lean 4.

Each definition below mirrors one Python function of the sources
(`DeviceDriverSimulator.py`, `InternalMemoryDevice.py`,
`RemovableMemoryDevice.py`, `Driver_USB.py`).  Randomised latency is
dropped (it does not affect returned values or state); the random
failure draw of a block operation is passed in as an explicit boolean
argument.  A Python statement that can raise an uncaught exception
(list indexing out of bounds) is modelled with `Option`, `none` being
the exception.  Python strings are Lean `String`s (slicing `s[:n]` is
`String.take`, `len` is `String.length`); Python ints are `Int`.
-/

/-- Python sequence-index resolution for a sequence of length `n`:
a non-negative index must be `< n`; a negative index `i` addresses
position `n + i` provided `-n ≤ i`; anything else raises `IndexError`
(`none`). -/
def pyIdx (n : Nat) (i : Int) : Option Nat :=
  if 0 ≤ i then
    if i < (n : Int) then some i.toNat else none
  else
    if -(n : Int) ≤ i then some ((n : Int) + i).toNat else none

/-- Python `lst[i] = v` on a list of strings. -/
def pySet (l : List String) (i : Int) (v : String) : Option (List String) :=
  (pyIdx l.length i).map (fun j => l.set j v)

/-- Python `lst[i]` on a list of strings. -/
def pyGet (l : List String) (i : Int) : Option String :=
  (pyIdx l.length i).map (fun j => l.getD j "")

/-! ## `DeviceDriverSimulator.RAMManager` -/

/-- `RAMManager.__init__(size)` state: `size` is the capacity, `used`
the currently accounted bytes (Python ints). -/
structure RAMManager where
  size : Int
  used : Int
deriving DecidableEq

/-- `RAMManager.allocate(amount)`: rejects (returning `false`, state
unchanged) when `used + amount > size`, otherwise adds `amount` to
`used` and returns `true`. -/
def RAMManager.allocate (r : RAMManager) (amount : Int) : RAMManager × Bool :=
  if r.used + amount > r.size then (r, false)
  else ({ r with used := r.used + amount }, true)

/-- `RAMManager.free(amount)`: `used = max(0, used - amount)`. -/
def RAMManager.free (r : RAMManager) (amount : Int) : RAMManager :=
  { r with used := max 0 (r.used - amount) }

/-- One call in a sequence of accountant operations. -/
inductive RAMOp where
  | alloc (amount : Int)
  | release (amount : Int)
deriving DecidableEq

/-- The amount carried by an accountant call. -/
def RAMOp.amount : RAMOp → Int
  | .alloc a => a
  | .release a => a

/-- Run one accountant call (the boolean result of `allocate` is
discarded, as callers that only mutate state do). -/
def RAMManager.step (r : RAMManager) : RAMOp → RAMManager
  | .alloc a => (r.allocate a).1
  | .release a => r.free a

/-- Run a sequence of accountant calls. -/
def RAMManager.runOps (r : RAMManager) (ops : List RAMOp) : RAMManager :=
  ops.foldl RAMManager.step r

/-! ## `DeviceDriverSimulator.Device` and `IORequest` -/

/-- The generic per-device driver state (`Device.__init__`). -/
structure Device where
  name : String
  busy : Bool
  buffer : String
deriving DecidableEq

/-- An I/O request (`IORequest.__init__`). -/
structure IORequest where
  device_id : Nat
  operation : String
  data : String
deriving DecidableEq

/-- The simulator state (`DeviceDriverSimulator.__init__`): a bounded
FIFO of requests, the device list and the RAM accountant.
`BUFFER_SIZE` and `IO_QUEUE_SIZE` are the constructor parameters. -/
structure DeviceDriverSimulator where
  BUFFER_SIZE : Nat
  IO_QUEUE_SIZE : Nat
  devices : List Device
  io_queue : List IORequest
  ram : RAMManager
deriving DecidableEq

/-- `enqueue_io(device_id, operation, data)`: drops the request
(returning with the state unchanged) when the queue already holds
`IO_QUEUE_SIZE` requests, otherwise appends it at the tail.  The
boolean records which branch ran (`false` = rejected as full). -/
def enqueue_io (s : DeviceDriverSimulator) (device_id : Nat)
    (operation data : String) : DeviceDriverSimulator × Bool :=
  if s.io_queue.length ≥ s.IO_QUEUE_SIZE then (s, false)
  else ({ s with io_queue := s.io_queue ++ [⟨device_id, operation, data⟩] }, true)

/-- `_device_driver(dev, req)`: sets `busy`, fills the device buffer
(truncated to `BUFFER_SIZE` for a write, the fixed simulated input for
a read), and asks the accountant for the buffer's length.  The
allocation result is only printed, never branched on. -/
def device_driver (bufSize : Nat) (ram : RAMManager) (dev : Device)
    (req : IORequest) : RAMManager × Device :=
  let dev1 : Device := { dev with busy := true }
  if req.operation = "write" then
    let dev2 : Device := { dev1 with buffer := req.data.take bufSize }
    ((ram.allocate (dev2.buffer.length : Int)).1, dev2)
  else if req.operation = "read" then
    let dev2 : Device := { dev1 with buffer := "Simulated input" }
    ((ram.allocate (dev2.buffer.length : Int)).1, dev2)
  else (ram, dev1)

/-- `_interrupt_handler(dev)`: frees `len(dev.buffer)` bytes, empties
the buffer and clears `busy`. -/
def interrupt_handler (ram : RAMManager) (dev : Device) : RAMManager × Device :=
  (ram.free (dev.buffer.length : Int), { dev with buffer := "", busy := false })

/-- `handle_io()`: take the head request; if the queue is empty return;
if the target device is busy re-enqueue the request at the tail;
otherwise run the driver then the completion interrupt.  `none` is the
`IndexError` raised by `self.devices[req.device_id]` when the id is
out of range. -/
def handle_io (s : DeviceDriverSimulator) : Option DeviceDriverSimulator :=
  match s.io_queue with
  | [] => some s
  | req :: rest =>
    match s.devices[req.device_id]? with
    | none => none
    | some dev =>
      let s1 : DeviceDriverSimulator := { s with io_queue := rest }
      if dev.busy then
        some (enqueue_io s1 req.device_id req.operation req.data).1
      else
        let rd1 := device_driver s.BUFFER_SIZE s.ram dev req
        let rd2 := interrupt_handler rd1.1 rd1.2
        some { s1 with devices := s1.devices.set req.device_id rd2.2, ram := rd2.1 }

/-- One queue-facing operation: a producer enqueue or the worker
taking the head (`popleft`). -/
inductive QOp where
  | enq (device_id : Nat) (operation data : String)
  | deq
deriving DecidableEq

/-- Run one queue operation. -/
def qStep (s : DeviceDriverSimulator) : QOp → DeviceDriverSimulator
  | .enq i op d => (enqueue_io s i op d).1
  | .deq => { s with io_queue := s.io_queue.tail }

/-! ## `InternalMemoryDevice`: the LRU cache (`collections.OrderedDict`)

The `OrderedDict` is a key-unique association list, oldest entry first,
newest last. -/

/-- `block_num in self.cache` / `self.cache[block_num]`. -/
def cacheLookup (c : List (Int × String)) (k : Int) : Option String :=
  (c.find? (fun p => p.1 == k)).map Prod.snd

/-- `self.cache.move_to_end(block_num)`: the entry keeps its stored
value and moves to the most-recently-used (last) position. -/
def moveToEnd (c : List (Int × String)) (k : Int) : List (Int × String) :=
  match c.find? (fun p => p.1 == k) with
  | none => c
  | some e => c.filter (fun p => p.1 != k) ++ [e]

/-- `_update_cache(block_num, data)`: on a hit only the recency is
refreshed (the stored value is NOT replaced); on a miss, the oldest
entry is popped when the cache already holds `cache_size` entries, and
the new pair is appended at the most-recently-used end. -/
def updateCache (cache_size : Nat) (c : List (Int × String)) (k : Int)
    (v : String) : List (Int × String) :=
  if (c.find? (fun p => p.1 == k)).isSome then
    moveToEnd c k
  else if cache_size ≤ c.length then
    c.tail ++ [(k, v)]
  else
    c ++ [(k, v)]

/-- The keys of the cache, oldest first. -/
def cacheKeys (c : List (Int × String)) : List Int :=
  c.map Prod.fst

/-! ## `InternalMemoryDevice` -/

/-- `InternalMemoryDevice.__init__` state. -/
structure InternalMemoryDevice where
  block_size : Nat
  total_blocks : Nat
  storage : List String
  block_state : List String
  cache : List (Int × String)
  cache_size : Nat
deriving DecidableEq

/-- `InternalMemoryDevice.__init__(name, capacity, block_size,
cache_size)`: `total_blocks = capacity // block_size`, all slots empty
and `free`, empty cache. -/
def initInternal (capacity block_size cache_size : Nat) : InternalMemoryDevice :=
  { block_size := block_size
    total_blocks := capacity / block_size
    storage := List.replicate (capacity / block_size) ""
    block_state := List.replicate (capacity / block_size) "free"
    cache := []
    cache_size := cache_size }

/-- `InternalMemoryDevice.write_block(block_num, data)`: range check
(`block_num >= total_blocks` only), failure draw, then store the data
truncated to `block_size`, mark the slot `used` and update the cache.
`fail` is the failure draw; `none` is an `IndexError` from indexing
beyond the negative end. -/
def writeBlock (d : InternalMemoryDevice) (block_num : Int) (data : String)
    (fail : Bool) : Option (InternalMemoryDevice × Bool) :=
  if (d.total_blocks : Int) ≤ block_num then some (d, false)
  else if fail then some (d, false)
  else
    let trunc := data.take d.block_size
    match pySet d.storage block_num trunc, pySet d.block_state block_num "used" with
    | some st, some bs =>
      some ({ d with
                storage := st
                block_state := bs
                cache := updateCache d.cache_size d.cache block_num trunc }, true)
    | _, _ => none

/-- Which branch of `read_block` produced the result. -/
inductive ReadOutcome where
  | outOfRange
  | failure
  | cacheHit (data : String)
  | storageRead (data : String)
deriving DecidableEq

/-- The string `read_block` actually returns for each outcome. -/
def ReadOutcome.value : ReadOutcome → String
  | .outOfRange => ""
  | .failure => "[BLOCK READ FAILURE]"
  | .cacheHit data => data
  | .storageRead data => data

/-- `InternalMemoryDevice.read_block(block_num)`: range check, failure
draw, then cache lookup (a hit promotes the entry to most recent and
returns the CACHED value); on a miss the backing slot is read and
inserted into the cache. -/
def readBlock (d : InternalMemoryDevice) (block_num : Int) (fail : Bool) :
    Option (InternalMemoryDevice × ReadOutcome) :=
  if (d.total_blocks : Int) ≤ block_num then some (d, .outOfRange)
  else if fail then some (d, .failure)
  else
    match cacheLookup d.cache block_num with
    | some data => some ({ d with cache := moveToEnd d.cache block_num }, .cacheHit data)
    | none =>
      match pyGet d.storage block_num with
      | none => none
      | some data =>
        some ({ d with cache := updateCache d.cache_size d.cache block_num data },
              .storageRead data)

/-! ## `RemovableMemoryDevice` -/

/-- `RemovableMemoryDevice.__init__` state (the inherited `Device`
fields `busy`/`buffer` play no role in its block operations). -/
structure RemovableMemoryDevice where
  block_size : Nat
  total_blocks : Nat
  storage : List String
  block_state : List String
  inserted : Bool
deriving DecidableEq

/-- `RemovableMemoryDevice.eject()`. -/
def eject (d : RemovableMemoryDevice) : RemovableMemoryDevice :=
  { d with inserted := false }

/-- `RemovableMemoryDevice.insert()`. -/
def insertDevice (d : RemovableMemoryDevice) : RemovableMemoryDevice :=
  { d with inserted := true }

/-- Which branch of the removable `write_block` ran; `toBool` below is
its Python return value. -/
inductive RWriteOutcome where
  | notInserted
  | outOfRange
  | failure
  | ok
deriving DecidableEq

/-- The boolean the removable `write_block` returns. -/
def RWriteOutcome.toBool : RWriteOutcome → Bool
  | .ok => true
  | _ => false

/-- `RemovableMemoryDevice.write_block(block_num, data)`: the inserted
check comes FIRST (before the range check, the latency and the failure
draw). -/
def rWriteBlock (d : RemovableMemoryDevice) (block_num : Int) (data : String)
    (fail : Bool) : Option (RemovableMemoryDevice × RWriteOutcome) :=
  if d.inserted = false then some (d, .notInserted)
  else if (d.total_blocks : Int) ≤ block_num then some (d, .outOfRange)
  else if fail then some (d, .failure)
  else
    match pySet d.storage block_num (data.take d.block_size),
          pySet d.block_state block_num "used" with
    | some st, some bs =>
      some ({ d with storage := st, block_state := bs }, .ok)
    | _, _ => none

/-- Which branch of the removable `read_block` ran. -/
inductive RReadOutcome where
  | notInserted
  | outOfRange
  | failure
  | ok (data : String)
deriving DecidableEq

/-- The string the removable `read_block` returns. -/
def RReadOutcome.value : RReadOutcome → String
  | .notInserted => ""
  | .outOfRange => ""
  | .failure => "[READ FAILURE]"
  | .ok data => data

/-- `RemovableMemoryDevice.read_block(block_num)`: inserted check
first, then range, then the failure draw, then the storage read. -/
def rReadBlock (d : RemovableMemoryDevice) (block_num : Int) (fail : Bool) :
    Option (RemovableMemoryDevice × RReadOutcome) :=
  if d.inserted = false then some (d, .notInserted)
  else if (d.total_blocks : Int) ≤ block_num then some (d, .outOfRange)
  else if fail then some (d, .failure)
  else
    match pyGet d.storage block_num with
    | none => none
    | some data => some (d, .ok data)

/-! ## `Driver_USB.py`: DCB, interrupt table, USB driver -/

/-- `DeviceControlBlock.__init__`. -/
structure DeviceControlBlock where
  device_id : Nat
  device_name : String
  capacity_gb : Nat
  is_connected : Bool
deriving DecidableEq

/-- `USBDriver.on_usb_insert`. -/
def on_usb_insert (d : DeviceControlBlock) : DeviceControlBlock :=
  { d with is_connected := true }

/-- `USBDriver.on_usb_remove`. -/
def on_usb_remove (d : DeviceControlBlock) : DeviceControlBlock :=
  { d with is_connected := false }

/-- The interrupt table as populated by `USBDriver.__init__`: handlers
registered for `USB_INSERT` and `USB_REMOVE`, mutating the driver's
DCB. -/
def usbInterruptTable : List (String × (DeviceControlBlock → DeviceControlBlock)) :=
  [("USB_INSERT", on_usb_insert), ("USB_REMOVE", on_usb_remove)]

/-- `InterruptTable.trigger_interrupt(interrupt_type)`: call the
registered handler if there is one, otherwise only log and leave the
state alone. -/
def trigger_interrupt (table : List (String × (DeviceControlBlock → DeviceControlBlock)))
    (interrupt_type : String) (d : DeviceControlBlock) : DeviceControlBlock :=
  match table.find? (fun p => p.1 == interrupt_type) with
  | some p => p.2 d
  | none => d

/-- `IOOPeration.__init__`; `data_size_mb` is modelled as a rational
number (the Python value is numeric and only divided by the transfer
rate). -/
structure IOOPeration where
  operation_type : String
  data_size_mb : ℚ
  process_name : String
deriving DecidableEq

/-- `USBDriver.transfer_rate_mb_s = 30.0` (exact in floating point). -/
def transfer_rate_mb_s : ℚ := 30

/-- Result of `USBDriver.perform_operation`: either the disconnected
error (nothing simulated) or completion with the simulated transfer
duration `data_size_mb / transfer_rate_mb_s`. -/
inductive USBResult where
  | notConnected
  | completed (transfer_time : ℚ)
deriving DecidableEq

/-- `USBDriver.perform_operation(io_operation)`: checks
`dcb.is_connected` first and reports an error without sleeping when
disconnected; otherwise computes the duration, sleeps for it and
reports completion. -/
def perform_operation (d : DeviceControlBlock) (io_op : IOOPeration) : USBResult :=
  if d.is_connected = false then .notConnected
  else .completed (io_op.data_size_mb / transfer_rate_mb_s)

/-! ## Theorems -/

/-- Auxiliary: one accountant call keeps `used` within `[0, size]` and
leaves `size` alone, provided the amount is non-negative. -/
lemma ramStep_bounds (r : RAMManager) (op : RAMOp) (h0 : 0 ≤ r.used)
    (h1 : r.used ≤ r.size) (ha : 0 ≤ op.amount) :
    0 ≤ (r.step op).used ∧ (r.step op).used ≤ r.size ∧ (r.step op).size = r.size := by
  cases op with
  | alloc a =>
    simp only [RAMOp.amount] at ha
    simp only [RAMManager.step, RAMManager.allocate]
    by_cases h : r.used + a > r.size
    · rw [if_pos h]; exact ⟨h0, h1, rfl⟩
    · rw [if_neg h]
      exact ⟨show (0 : Int) ≤ r.used + a by omega,
             show r.used + a ≤ r.size by omega, rfl⟩
  | release a =>
    simp only [RAMOp.amount] at ha
    exact ⟨show (0 : Int) ≤ max 0 (r.used - a) by omega,
           show max 0 (r.used - a) ≤ r.size by omega, rfl⟩

/-- Auxiliary: the invariant carried through a whole call sequence. -/
lemma runOps_bounds : ∀ (ops : List RAMOp) (r : RAMManager), 0 ≤ r.used →
    r.used ≤ r.size → (∀ op ∈ ops, 0 ≤ op.amount) →
    0 ≤ (r.runOps ops).used ∧ (r.runOps ops).used ≤ r.size ∧
      (r.runOps ops).size = r.size := by
  intro ops
  induction ops with
  | nil => intro r h0 h1 _; exact ⟨h0, h1, rfl⟩
  | cons op ops ih =>
    intro r h0 h1 hall
    have hstep := ramStep_bounds r op h0 h1 (hall op (by simp))
    have hrec := ih (r.step op) hstep.1 (hstep.2.2 ▸ hstep.2.1)
      (fun o ho => hall o (by simp [ho]))
    have hfold : r.runOps (op :: ops) = (r.step op).runOps ops := rfl
    refine ⟨?_, ?_, ?_⟩
    · rw [hfold]; exact hrec.1
    · rw [hfold]; exact hstep.2.2 ▸ hrec.2.1
    · rw [hfold, hrec.2.2, hstep.2.2]

/-- C2: `RAMManager.allocate` succeeds iff `used + amount ≤ size`; on
success it adds exactly `amount` to `used`, on failure it returns
`false` and leaves the state unchanged; in particular an accountant
with capacity 1024 and `used = 0` rejects `allocate 2048`. -/
theorem allocate_spec (r : RAMManager) (amount : Int) :
    ((r.allocate amount).2 = true ↔ r.used + amount ≤ r.size) ∧
    ((r.allocate amount).2 = true →
      (r.allocate amount).1 = { r with used := r.used + amount }) ∧
    ((r.allocate amount).2 = false → (r.allocate amount).1 = r) ∧
    RAMManager.allocate ⟨1024, 0⟩ 2048 = (⟨1024, 0⟩, false) := by
  refine ⟨?_, ?_, ?_, by decide⟩
  · simp only [RAMManager.allocate]
    by_cases h : r.used + amount > r.size
    · rw [if_pos h]; simp; omega
    · rw [if_neg h]; simp; omega
  · intro hs
    simp only [RAMManager.allocate] at hs ⊢
    by_cases h : r.used + amount > r.size
    · rw [if_pos h] at hs; simp at hs
    · rw [if_neg h]
  · intro hs
    simp only [RAMManager.allocate] at hs ⊢
    by_cases h : r.used + amount > r.size
    · rw [if_pos h]
    · rw [if_neg h] at hs; simp at hs

/-- Witness for C2 at concrete inputs. -/
theorem allocate_spec_witness :
    (RAMManager.allocate ⟨1024, 100⟩ 50).1 = { size := 1024, used := 100 + 50 } ∧
    (RAMManager.allocate ⟨1024, 0⟩ 2048).1 = ⟨1024, 0⟩ :=
  ⟨(allocate_spec ⟨1024, 100⟩ 50).2.1 (by decide),
   (allocate_spec ⟨1024, 0⟩ 2048).2.2.1 (by decide)⟩

/-- C3: for every sequence of accountant calls with non-negative
amounts, starting from a fresh accountant (`used = 0`) with a
non-negative capacity, `used` never goes negative and never exceeds
the capacity; additionally `free` floors its decrement at zero. -/
theorem ram_used_invariant (size : Int) (ops : List RAMOp)
    (hsize : 0 ≤ size) (hamounts : ∀ op ∈ ops, 0 ≤ op.amount) :
    (0 ≤ (RAMManager.runOps ⟨size, 0⟩ ops).used ∧
     (RAMManager.runOps ⟨size, 0⟩ ops).used ≤ size) ∧
    (∀ (r : RAMManager) (amount : Int),
      (r.free amount).used = max 0 (r.used - amount)) := by
  have h := runOps_bounds ops ⟨size, 0⟩ (by simp) (by simpa) hamounts
  exact ⟨⟨h.1, h.2.1⟩, fun r amount => rfl⟩

/-- Witness for C3 at a concrete call sequence. -/
theorem ram_used_invariant_witness :
    0 ≤ (RAMManager.runOps ⟨8, 0⟩
          [RAMOp.alloc 5, RAMOp.release 10, RAMOp.alloc 3]).used ∧
    (RAMManager.runOps ⟨8, 0⟩
          [RAMOp.alloc 5, RAMOp.release 10, RAMOp.alloc 3]).used ≤ 8 :=
  (ram_used_invariant 8 [RAMOp.alloc 5, RAMOp.release 10, RAMOp.alloc 3]
    (by decide) (by intro op hop; fin_cases hop <;> decide)).1

/-- Auxiliary: one queue operation preserves the length bound and the
configured capacity. -/
lemma qStep_bound (s : DeviceDriverSimulator) (op : QOp)
    (h : s.io_queue.length ≤ s.IO_QUEUE_SIZE) :
    (qStep s op).io_queue.length ≤ s.IO_QUEUE_SIZE ∧
      (qStep s op).IO_QUEUE_SIZE = s.IO_QUEUE_SIZE := by
  cases op with
  | enq i o d =>
    simp only [qStep, enqueue_io]
    by_cases hf : s.io_queue.length ≥ s.IO_QUEUE_SIZE
    · rw [if_pos hf]; exact ⟨h, rfl⟩
    · rw [if_neg hf]
      refine ⟨?_, rfl⟩
      simp only [List.length_append, List.length_cons, List.length_nil]
      omega
  | deq =>
    refine ⟨?_, rfl⟩
    have := List.length_tail s.io_queue
    simp only [qStep]
    omega

/-- Auxiliary: the queue-length bound carried through a whole
operation sequence. -/
lemma foldl_qStep_bound : ∀ (ops : List QOp) (s : DeviceDriverSimulator),
    s.io_queue.length ≤ s.IO_QUEUE_SIZE →
    (ops.foldl qStep s).io_queue.length ≤ s.IO_QUEUE_SIZE ∧
      (ops.foldl qStep s).IO_QUEUE_SIZE = s.IO_QUEUE_SIZE := by
  intro ops
  induction ops with
  | nil => intro s h; exact ⟨h, rfl⟩
  | cons op ops ih =>
    intro s h
    have hstep := qStep_bound s op h
    have hrec := ih (qStep s op) (hstep.2 ▸ hstep.1)
    exact ⟨hstep.2 ▸ hrec.1, hstep.2 ▸ hrec.2⟩

/-- C9: `enqueue_io` on a full queue is rejected with the state
unchanged (the request is dropped, not blocked on); below capacity the
request is appended at the tail; and under any sequence of enqueue and
dequeue operations the queue length never exceeds the configured
capacity. -/
theorem enqueue_io_bounded :
    (∀ (s : DeviceDriverSimulator) (i : Nat) (op d : String),
      s.IO_QUEUE_SIZE ≤ s.io_queue.length → enqueue_io s i op d = (s, false)) ∧
    (∀ (s : DeviceDriverSimulator) (i : Nat) (op d : String),
      s.io_queue.length < s.IO_QUEUE_SIZE →
      enqueue_io s i op d =
        ({ s with io_queue := s.io_queue ++ [⟨i, op, d⟩] }, true)) ∧
    (∀ (s : DeviceDriverSimulator) (ops : List QOp),
      s.io_queue.length ≤ s.IO_QUEUE_SIZE →
      (ops.foldl qStep s).io_queue.length ≤ s.IO_QUEUE_SIZE) := by
  refine ⟨?_, ?_, ?_⟩
  · intro s i op d h
    simp only [enqueue_io]
    rw [if_pos (by omega)]
  · intro s i op d h
    simp only [enqueue_io]
    rw [if_neg (by omega)]
  · intro s ops h
    exact (foldl_qStep_bound ops s h).1

/-- Witness for C9 at a concrete full queue and operation sequence. -/
theorem enqueue_io_bounded_witness :
    enqueue_io { BUFFER_SIZE := 128, IO_QUEUE_SIZE := 1,
                 devices := [], io_queue := [⟨0, "read", ""⟩],
                 ram := ⟨1024, 0⟩ } 0 "write" "x" =
      ({ BUFFER_SIZE := 128, IO_QUEUE_SIZE := 1,
         devices := [], io_queue := [⟨0, "read", ""⟩],
         ram := ⟨1024, 0⟩ }, false) ∧
    ([QOp.enq 0 "read" "", QOp.enq 1 "write" "y", QOp.deq].foldl qStep
        { BUFFER_SIZE := 128, IO_QUEUE_SIZE := 1,
          devices := [], io_queue := [], ram := ⟨1024, 0⟩ }).io_queue.length ≤ 1 :=
  ⟨enqueue_io_bounded.1 _ 0 "write" "x" (by decide),
   enqueue_io_bounded.2.2 _ [QOp.enq 0 "read" "", QOp.enq 1 "write" "y", QOp.deq]
     (by decide)⟩

/-- C6: when the worker pops a request whose target device is busy, it
re-enqueues the very same request (same `device_id`, `operation` and
`data`) at the tail of the queue; everything else — the device list,
the accountant, the configured sizes — is left untouched. -/
theorem busy_requeue (s : DeviceDriverSimulator) (req : IORequest)
    (rest : List IORequest) (dev : Device)
    (hq : s.io_queue = req :: rest)
    (hdev : s.devices[req.device_id]? = some dev)
    (hbusy : dev.busy = true)
    (hlen : s.io_queue.length ≤ s.IO_QUEUE_SIZE) :
    handle_io s = some { s with io_queue := rest ++ [req] } := by
  rw [hq] at hlen
  simp only [handle_io, hq, hdev, hbusy, if_pos, enqueue_io]
  rw [if_neg (by simp at hlen ⊢; omega)]

/-- Witness for C6 at a concrete busy device. -/
theorem busy_requeue_witness :
    handle_io { BUFFER_SIZE := 128, IO_QUEUE_SIZE := 10,
                devices := [⟨"Printer", true, ""⟩],
                io_queue := [⟨0, "write", "hi"⟩, ⟨0, "read", ""⟩],
                ram := ⟨1024, 0⟩ } =
      some { BUFFER_SIZE := 128, IO_QUEUE_SIZE := 10,
             devices := [⟨"Printer", true, ""⟩],
             io_queue := [⟨0, "read", ""⟩, ⟨0, "write", "hi"⟩],
             ram := ⟨1024, 0⟩ } :=
  busy_requeue _ ⟨0, "write", "hi"⟩ [⟨0, "read", ""⟩] ⟨"Printer", true, ""⟩
    rfl (by decide) rfl (by decide)

/-- C7: both removable-device block operations check the `inserted`
flag first: when it is false they report not-inserted and return with
the device state (storage, block states, everything) unchanged, for
either value of the failure draw — so neither the latency nor the
failure simulation is reached; in particular after `eject()`,
`read_block(0)` reports not-inserted and the storage is unchanged. -/
theorem removable_not_inserted_fail_fast
    (d : RemovableMemoryDevice) (block_num : Int) (data : String) (fail : Bool)
    (h : d.inserted = false) :
    rWriteBlock d block_num data fail = some (d, .notInserted) ∧
    rReadBlock d block_num fail = some (d, .notInserted) ∧
    (∀ d' : RemovableMemoryDevice,
      rReadBlock (eject d') 0 fail = some (eject d', .notInserted) ∧
      (eject d').storage = d'.storage ∧ (eject d').block_state = d'.block_state) := by
  refine ⟨?_, ?_, fun d' => ⟨?_, rfl, rfl⟩⟩
  · simp only [rWriteBlock, h, if_pos]
  · simp only [rReadBlock, h, if_pos]
  · simp only [rReadBlock, eject, if_pos]

/-- Witness for C7 at a concrete ejected device. -/
theorem removable_not_inserted_fail_fast_witness :
    rWriteBlock { block_size := 128, total_blocks := 8,
                  storage := List.replicate 8 "",
                  block_state := List.replicate 8 "free",
                  inserted := false } 0 "abc" true =
      some ({ block_size := 128, total_blocks := 8,
              storage := List.replicate 8 "",
              block_state := List.replicate 8 "free",
              inserted := false }, .notInserted) :=
  (removable_not_inserted_fail_fast _ 0 "abc" true rfl).1

/-- C8: `perform_operation` reports a disconnected error (simulating
no transfer duration) whenever the connection flag is down, and
otherwise completes after simulating exactly
`data_size_mb / transfer_rate_mb_s`; the flag is set by the
`USB_INSERT` handler and cleared by the `USB_REMOVE` handler that
`USBDriver.__init__` registers, so after triggering `USB_REMOVE` the
operation reports the disconnected error. -/
theorem usb_perform_operation_spec
    (d : DeviceControlBlock) (io_op : IOOPeration) :
    (d.is_connected = false → perform_operation d io_op = .notConnected) ∧
    (d.is_connected = true →
      perform_operation d io_op =
        .completed (io_op.data_size_mb / transfer_rate_mb_s)) ∧
    trigger_interrupt usbInterruptTable "USB_INSERT" d =
      { d with is_connected := true } ∧
    trigger_interrupt usbInterruptTable "USB_REMOVE" d =
      { d with is_connected := false } ∧
    perform_operation (trigger_interrupt usbInterruptTable "USB_REMOVE" d) io_op =
      .notConnected := by
  refine ⟨fun h => ?_, fun h => ?_, rfl, rfl, rfl⟩
  · simp only [perform_operation, h, if_pos]
  · simp only [perform_operation, h]
    rfl

/-- Witness for C8 at a concrete DCB and operation. -/
theorem usb_perform_operation_spec_witness :
    perform_operation ⟨1, "USB", 128, false⟩ ⟨"WRITE", 200, "Process A"⟩ =
      .notConnected ∧
    perform_operation ⟨1, "USB", 128, true⟩ ⟨"WRITE", 200, "Process A"⟩ =
      .completed (200 / 30) :=
  ⟨(usb_perform_operation_spec ⟨1, "USB", 128, false⟩ ⟨"WRITE", 200, "Process A"⟩).1 rfl,
   (usb_perform_operation_spec ⟨1, "USB", 128, true⟩ ⟨"WRITE", 200, "Process A"⟩).2.1 rfl⟩

/-- Auxiliary: a negative Python index `-k` with `1 ≤ k ≤ n` resolves
to position `n - k`. -/
lemma pyIdx_neg (n k : Nat) (h1 : 1 ≤ k) (h2 : k ≤ n) :
    pyIdx n (-(k : Int)) = some (n - k) := by
  simp only [pyIdx]
  rw [if_neg (by omega), if_pos (by omega)]
  congr 1
  omega

/-- Auxiliary: the corresponding list assignment. -/
lemma pySet_neg (l : List String) (k : Nat) (v : String)
    (h1 : 1 ≤ k) (h2 : k ≤ l.length) :
    pySet l (-(k : Int)) v = some (l.set (l.length - k) v) := by
  simp only [pySet, pyIdx_neg l.length k h1 h2]
  rfl

/-- Auxiliary: the corresponding list read. -/
lemma pyGet_neg (l : List String) (k : Nat) (h1 : 1 ≤ k) (h2 : k ≤ l.length) :
    pyGet l (-(k : Int)) = some (l.getD (l.length - k) "") := by
  simp only [pyGet, pyIdx_neg l.length k h1 h2]
  rfl

/-- C10: the range validation of the block devices only rejects
indices `≥ total_blocks`, so for every `1 ≤ k ≤ total_blocks` the
index `-k` passes the check and (absent a simulated fault) the
operation succeeds, acting on the slot at position `total_blocks - k`
via Python's negative indexing: the internal device's `write_block`
stores the truncated payload there and returns success, its
`read_block` never reports the out-of-range (nor failure) outcome and
on a cache miss returns that very slot, and the removable device's
`write_block` behaves the same when inserted. -/
theorem negative_index_in_range :
    (∀ (d : InternalMemoryDevice) (k : Nat) (data : String),
      1 ≤ k → k ≤ d.total_blocks →
      d.storage.length = d.total_blocks → d.block_state.length = d.total_blocks →
      writeBlock d (-(k : Int)) data false =
        some ({ d with
                  storage := d.storage.set (d.total_blocks - k) (data.take d.block_size)
                  block_state := d.block_state.set (d.total_blocks - k) "used"
                  cache := updateCache d.cache_size d.cache (-(k : Int))
                             (data.take d.block_size) }, true)) ∧
    (∀ (d : InternalMemoryDevice) (k : Nat),
      1 ≤ k → k ≤ d.total_blocks → d.storage.length = d.total_blocks →
      cacheLookup d.cache (-(k : Int)) = none →
      readBlock d (-(k : Int)) false =
        some ({ d with cache := updateCache d.cache_size d.cache (-(k : Int))
                                  (d.storage.getD (d.total_blocks - k) "") },
              .storageRead (d.storage.getD (d.total_blocks - k) ""))) ∧
    (∀ (d : InternalMemoryDevice) (k : Nat),
      1 ≤ k → k ≤ d.total_blocks → d.storage.length = d.total_blocks →
      ∃ r, readBlock d (-(k : Int)) false = some r ∧
        r.2 ≠ .outOfRange ∧ r.2 ≠ .failure) ∧
    (∀ (d : RemovableMemoryDevice) (k : Nat) (data : String),
      1 ≤ k → k ≤ d.total_blocks → d.inserted = true →
      d.storage.length = d.total_blocks → d.block_state.length = d.total_blocks →
      rWriteBlock d (-(k : Int)) data false =
        some ({ d with
                  storage := d.storage.set (d.total_blocks - k) (data.take d.block_size)
                  block_state := d.block_state.set (d.total_blocks - k) "used" }, .ok)) := by
  refine ⟨?_, ?_, ?_, ?_⟩
  · intro d k data hk1 hk2 hst hbs
    simp only [writeBlock]
    rw [if_neg (by omega), if_neg (by simp),
        pySet_neg d.storage k _ hk1 (by omega),
        pySet_neg d.block_state k _ hk1 (by omega), hst, hbs]
  · intro d k hk1 hk2 hst hmiss
    simp only [readBlock]
    rw [if_neg (by omega), if_neg (by simp), hmiss,
        pyGet_neg d.storage k hk1 (by omega), hst]
  · intro d k hk1 hk2 hst
    simp only [readBlock]
    rw [if_neg (by omega), if_neg (by simp)]
    cases hc : cacheLookup d.cache (-(k : Int)) with
    | some v => exact ⟨_, rfl, by simp, by simp⟩
    | none =>
      rw [pyGet_neg d.storage k hk1 (by omega)]
      exact ⟨_, rfl, by simp, by simp⟩
  · intro d k data hk1 hk2 hins hst hbs
    simp only [rWriteBlock]
    rw [if_neg (by simp [hins]), if_neg (by omega), if_neg (by simp),
        pySet_neg d.storage k _ hk1 (by omega),
        pySet_neg d.block_state k _ hk1 (by omega), hst, hbs]

/-- Witness for C10: writing block `-1` of a freshly initialised
internal device targets its last slot. -/
theorem negative_index_in_range_witness :
    writeBlock (initInternal 1024 256 4) (-((1 : Nat) : Int)) "abc" false =
      some ({ initInternal 1024 256 4 with
                storage := (initInternal 1024 256 4).storage.set
                  ((initInternal 1024 256 4).total_blocks - 1)
                  ("abc".take (initInternal 1024 256 4).block_size)
                block_state := (initInternal 1024 256 4).block_state.set
                  ((initInternal 1024 256 4).total_blocks - 1) "used"
                cache := updateCache (initInternal 1024 256 4).cache_size
                  (initInternal 1024 256 4).cache (-((1 : Nat) : Int))
                  ("abc".take (initInternal 1024 256 4).block_size) }, true) :=
  negative_index_in_range.1 (initInternal 1024 256 4) 1 "abc"
    (by decide) (by decide) (by decide) (by decide)

/-- Auxiliary: driver operation followed by the completion interrupt
leaves the device idle; the accountant returns to its entry value
when the entry value was 0 or the allocation fits. -/
lemma driver_then_interrupt (bufSize : Nat) (ram : RAMManager) (dev : Device)
    (req : IORequest) (hused : 0 ≤ ram.used)
    (hop : req.operation = "write" ∨ req.operation = "read")
    (hfit : ram.used = 0 ∨
      ram.used + (((if req.operation = "write"
        then (req.data.take bufSize).length else 15) : Nat) : Int) ≤ ram.size) :
    interrupt_handler (device_driver bufSize ram dev req).1
        (device_driver bufSize ram dev req).2 =
      (ram, { dev with busy := false, buffer := "" }) := by
  obtain ⟨sz, u⟩ := ram
  simp only [] at hused hfit
  rcases hop with hop | hop
  · simp only [hop, reduceIte] at hfit
    simp only [device_driver, interrupt_handler, RAMManager.allocate,
      RAMManager.free, hop, reduceIte]
    split <;> simp_all <;> try omega
  · simp only [hop, reduceIte] at hfit
    simp only [device_driver, interrupt_handler, RAMManager.allocate,
      RAMManager.free, hop, reduceIte]
    rw [show ((("Simulated input").length : Nat) : Int) = 15 from rfl]
    by_cases hgt : u + (15 : Int) > sz
    · rw [if_pos hgt]
      simp_all [show ("Simulated input").length = 15 from rfl]
      try omega
    · rw [if_neg hgt]
      simp_all [show ("Simulated input").length = 15 from rfl]
      try omega

/-- C5 (amended): after `handle_io` processes a read/write request on
a non-busy device, the device is idle (`busy` false, buffer empty)
and, PROVIDED the accountant enters with `used = 0` or with enough
room for the request's buffer, `used` returns exactly to its entry
value (the completion interrupt frees exactly the buffer length that
was requested).  Without that proviso the claim fails: on a rejected
allocation the interrupt still frees the buffer length, flooring at
zero — see the counterexample. -/
theorem handle_io_idle_and_restores
    (s : DeviceDriverSimulator) (req : IORequest) (rest : List IORequest)
    (dev : Device)
    (hq : s.io_queue = req :: rest)
    (hdev : s.devices[req.device_id]? = some dev)
    (hbusy : dev.busy = false)
    (hused : 0 ≤ s.ram.used)
    (hop : req.operation = "write" ∨ req.operation = "read")
    (hfit : s.ram.used = 0 ∨
      s.ram.used + (((if req.operation = "write"
        then (req.data.take s.BUFFER_SIZE).length else 15) : Nat) : Int) ≤ s.ram.size) :
    ∃ s', handle_io s = some s' ∧
      s'.ram = s.ram ∧
      s'.io_queue = rest ∧
      s'.devices = s.devices.set req.device_id
        { dev with busy := false, buffer := "" } := by
  have hstep := driver_then_interrupt s.BUFFER_SIZE s.ram dev req hused hop hfit
  simp only [handle_io, hq, hdev, hbusy, Bool.false_eq_true, if_false]
  exact ⟨_, rfl, by rw [hstep], rfl, by rw [hstep]⟩

/-- C5 counterexample: with the accountant entering at `used = 1020`
(capacity 1024), a read request on an idle device is processed, its
15-byte allocation is rejected, and yet the completion interrupt frees
15 bytes — `used` ends at 1005, not at its prior value 1020. -/
theorem handle_io_used_not_restored :
    ((handle_io { BUFFER_SIZE := 128, IO_QUEUE_SIZE := 10,
                  devices := [⟨"Dev", false, ""⟩],
                  io_queue := [⟨0, "read", ""⟩],
                  ram := ⟨1024, 1020⟩ }).map (fun s => s.ram.used) = some 1005) ∧
    (1005 : Int) ≠ 1020 := by
  exact ⟨by decide, by decide⟩

/-- Witness for C5 (amended) at a concrete idle device with room. -/
theorem handle_io_idle_and_restores_witness :
    ∃ s', handle_io { BUFFER_SIZE := 128, IO_QUEUE_SIZE := 10,
                      devices := [⟨"Dev", false, "x"⟩],
                      io_queue := [⟨0, "read", ""⟩],
                      ram := ⟨1024, 100⟩ } = some s' ∧
      s'.ram = ({ size := 1024, used := 100 } : RAMManager) ∧
      s'.io_queue = [] ∧
      s'.devices = [⟨"Dev", false, "x"⟩].set 0 ⟨"Dev", false, ""⟩ :=
  handle_io_idle_and_restores _ ⟨0, "read", ""⟩ [] ⟨"Dev", false, "x"⟩
    rfl (by decide) rfl (by decide) (Or.inr rfl) (by decide)

/-- C1 (code-bug evaluation): writing fresh data to a block that is
already cached succeeds and stores the new data in the slot, but
`_update_cache` only refreshes recency on a hit — the cache keeps the
OLD payload, and the following `read_block` is a cache hit returning
the stale bytes instead of the bytes just written. -/
theorem write_block_stale_cache :
    (writeBlock { block_size := 4, total_blocks := 2, storage := ["", ""],
                  block_state := ["free", "free"], cache := [(0, "old")],
                  cache_size := 4 } 0 "new" false).map
      (fun r => (r.2, cacheLookup r.1.cache 0, r.1.storage.getD 0 "",
                 (readBlock r.1 0 false).map Prod.snd)) =
      some (true, some "old", "new", some (ReadOutcome.cacheHit "old")) ∧
    "old" ≠ "new" :=
  ⟨by decide, by decide⟩

/-- Auxiliary: the number of cache keys is the number of entries. -/
lemma cacheKeys_length (c : List (Int × String)) :
    (cacheKeys c).length = c.length := by
  simp [cacheKeys]

/-- Auxiliary: a key not among the cache keys is not found. -/
lemma find?_eq_none_of_not_mem (c : List (Int × String)) (k : Int)
    (h : k ∉ cacheKeys c) : c.find? (fun p => p.1 == k) = none := by
  rw [List.find?_eq_none]
  intro x hx
  simp only [beq_iff_eq]
  intro hk
  exact h (by simpa [cacheKeys, hk] using List.mem_map_of_mem Prod.fst hx)

/-- Auxiliary: inserting a fresh key either evicts the head (cache
full) or plainly appends. -/
lemma updateCache_fresh (cs : Nat) (c : List (Int × String)) (k : Int)
    (v : String) (h : k ∉ cacheKeys c) :
    updateCache cs c k v =
      if cs ≤ c.length then c.tail ++ [(k, v)] else c ++ [(k, v)] := by
  rw [updateCache, find?_eq_none_of_not_mem c k h]
  rfl

/-- Auxiliary: `_update_cache` never grows the cache beyond
`cache_size` (for a positive capacity). -/
lemma updateCache_length_le (cs : Nat) (c : List (Int × String)) (k : Int)
    (v : String) (hcs : 1 ≤ cs) (hlen : c.length ≤ cs) :
    (updateCache cs c k v).length ≤ cs := by
  rw [updateCache]
  by_cases hfind : (c.find? (fun p => p.1 == k)).isSome
  · rw [if_pos hfind]
    cases he : c.find? (fun p => p.1 == k) with
    | none => rw [he] at hfind; simp at hfind
    | some e =>
      have hmem := List.mem_of_find?_eq_some he
      have hpe := List.find?_some he
      simp only [moveToEnd, he, List.length_append, List.length_cons,
        List.length_nil]
      have hlt : (c.filter (fun p => p.1 != k)).length < c.length := by
        rw [List.length_filter_lt_length_iff_exists]
        refine ⟨e, hmem, ?_⟩
        simp only [beq_iff_eq] at hpe
        simp [hpe]
      omega
  · rw [if_neg hfind]
    by_cases hfull : cs ≤ c.length
    · rw [if_pos hfull]
      have := List.length_tail c
      simp only [List.length_append, List.length_cons, List.length_nil]
      omega
    · rw [if_neg hfull]
      simp only [List.length_append, List.length_cons, List.length_nil]
      omega

/-- Auxiliary: after `_update_cache` the touched key sits at the
most-recently-used (last) end. -/
lemma updateCache_getLast (cs : Nat) (c : List (Int × String)) (k : Int)
    (v : String) :
    ∃ w, (updateCache cs c k v).getLast? = some (k, w) := by
  rw [updateCache]
  by_cases hfind : (c.find? (fun p => p.1 == k)).isSome
  · rw [if_pos hfind]
    cases he : c.find? (fun p => p.1 == k) with
    | none => rw [he] at hfind; simp at hfind
    | some e =>
      have hpe := List.find?_some he
      simp only [moveToEnd, he]
      refine ⟨e.2, ?_⟩
      rw [List.getLast?_concat]
      simp only [beq_iff_eq] at hpe
      cases e
      simp_all
  · rw [if_neg hfind]
    by_cases hfull : cs ≤ c.length
    · rw [if_pos hfull]; exact ⟨v, List.getLast?_concat _⟩
    · rw [if_neg hfull]; exact ⟨v, List.getLast?_concat _⟩

/-- Auxiliary: `move_to_end` on a present key also ends with that
key (the `read_block` cache-hit path). -/
lemma moveToEnd_getLast (c : List (Int × String)) (k : Int)
    (h : (c.find? (fun p => p.1 == k)).isSome) :
    ∃ w, (moveToEnd c k).getLast? = some (k, w) := by
  cases he : c.find? (fun p => p.1 == k) with
  | none => rw [he] at h; simp at h
  | some e =>
    have hpe := List.find?_some he
    simp only [moveToEnd, he]
    refine ⟨e.2, ?_⟩
    rw [List.getLast?_concat]
    simp only [beq_iff_eq] at hpe
    cases e
    simp_all

/-- Auxiliary: folding `_update_cache` over a sequence of touches with
pairwise-distinct keys, all fresh with respect to the current cache,
leaves exactly the most recent `cache_size` keys (oldest first). -/
lemma foldl_updateCache_keys (cs : Nat) (hcs : 1 ≤ cs) :
    ∀ (l c : List (Int × String)),
      (cacheKeys c).Nodup → (l.map Prod.fst).Nodup →
      (∀ p ∈ l, p.1 ∉ cacheKeys c) → c.length ≤ cs →
      cacheKeys (l.foldl (fun acc p => updateCache cs acc p.1 p.2) c) =
        (cacheKeys c ++ l.map Prod.fst).drop (c.length + l.length - cs) := by
  intro l
  induction l with
  | nil =>
    intro c hc _ _ hlen
    simp only [List.foldl_nil, List.map_nil, List.append_nil, List.length_nil,
      Nat.add_zero, Nat.sub_eq_zero_of_le hlen, List.drop_zero]
  | cons p xs ih =>
    intro c hc hnd hfresh hlen
    rw [List.map_cons] at hnd
    have hnd' := List.nodup_cons.mp hnd
    have hkfresh : p.1 ∉ cacheKeys c := hfresh p (List.mem_cons_self p xs)
    rw [List.foldl_cons, updateCache_fresh cs c p.1 p.2 hkfresh]
    by_cases hcase : cs ≤ c.length
    · -- cache already full: evict the head
      rw [if_pos hcase]
      have hceq : c.length = cs := Nat.le_antisymm hlen hcase
      have hkeys1 : cacheKeys (c.tail ++ [(p.1, p.2)]) =
          (cacheKeys c).tail ++ [p.1] := by
        simp [cacheKeys, List.map_tail]
      have hlen1 : (c.tail ++ [(p.1, p.2)]).length = cs := by
        have := List.length_tail c
        simp only [List.length_append, List.length_cons, List.length_nil]
        omega
      have h1 : (cacheKeys (c.tail ++ [(p.1, p.2)])).Nodup := by
        rw [hkeys1]
        refine List.Nodup.append (hc.sublist (List.tail_sublist _))
          (List.nodup_singleton _) ?_
        intro a ha hb
        simp only [List.mem_singleton] at hb
        subst hb
        exact hkfresh (List.mem_of_mem_tail ha)
      have h3 : ∀ q ∈ xs, q.1 ∉ cacheKeys (c.tail ++ [(p.1, p.2)]) := by
        intro q hq
        rw [hkeys1]
        simp only [List.mem_append, List.mem_singleton]
        rintro (hmem | hmem)
        · exact hfresh q (List.mem_cons_of_mem p hq) (List.mem_of_mem_tail hmem)
        · exact hnd'.1 (hmem ▸ List.mem_map_of_mem Prod.fst hq)
      have hih := ih (c.tail ++ [(p.1, p.2)]) h1 hnd'.2 h3 (le_of_eq hlen1)
      rw [hih, hkeys1, hlen1]
      obtain ⟨a, t, hK⟩ : ∃ a t, cacheKeys c = a :: t := by
        cases hKc : cacheKeys c with
        | nil =>
          exfalso
          have hl := cacheKeys_length c
          rw [hKc] at hl
          simp at hl
          omega
        | cons a t => exact ⟨a, t, rfl⟩
      rw [hK]
      simp only [List.tail_cons, List.map_cons, List.length_cons,
        List.cons_append, List.append_assoc, List.singleton_append]
      rw [show cs + xs.length - cs = xs.length from by omega,
          show c.length + (xs.length + 1) - cs = xs.length + 1 from by omega,
          List.drop_succ_cons]
      simp
    · -- cache has room: plain append
      rw [if_neg hcase]
      have hkeys1 : cacheKeys (c ++ [(p.1, p.2)]) = cacheKeys c ++ [p.1] := by
        simp [cacheKeys]
      have hlen1 : (c ++ [(p.1, p.2)]).length = c.length + 1 := by
        simp
      have h1 : (cacheKeys (c ++ [(p.1, p.2)])).Nodup := by
        rw [hkeys1]
        refine List.Nodup.append hc (List.nodup_singleton _) ?_
        intro a ha hb
        simp only [List.mem_singleton] at hb
        subst hb
        exact hkfresh ha
      have h3 : ∀ q ∈ xs, q.1 ∉ cacheKeys (c ++ [(p.1, p.2)]) := by
        intro q hq
        rw [hkeys1]
        simp only [List.mem_append, List.mem_singleton]
        rintro (hmem | hmem)
        · exact hfresh q (List.mem_cons_of_mem p hq) hmem
        · exact hnd'.1 (hmem ▸ List.mem_map_of_mem Prod.fst hq)
      have hih := ih (c ++ [(p.1, p.2)]) h1 hnd'.2 h3 (by omega)
      rw [hih, hkeys1, hlen1]
      simp only [List.map_cons, List.length_cons, List.append_assoc,
        List.singleton_append]
      congr 1
      omega

/-- C4: the internal device's cache is a strict LRU of capacity
`cache_size`: it never exceeds `cache_size` entries; every touch (hit
or fresh insert) leaves the touched key at the most-recently-used
end; inserting a fresh key into a full cache evicts exactly the head
(least recently touched) entry; after touching more than `cache_size`
distinct blocks starting from an empty cache, the cache holds exactly
the `cache_size` most recently touched keys in recency order; and the
cache updates of `write_block` (success), `read_block` (miss) and
`read_block` (hit) are exactly `_update_cache` resp. `move_to_end`. -/
theorem lru_cache_spec :
    (∀ (cs : Nat) (c : List (Int × String)) (k : Int) (v : String),
      1 ≤ cs → c.length ≤ cs → (updateCache cs c k v).length ≤ cs) ∧
    (∀ (cs : Nat) (c : List (Int × String)) (k : Int) (v : String),
      ∃ w, (updateCache cs c k v).getLast? = some (k, w)) ∧
    (∀ (cs : Nat) (c : List (Int × String)) (k : Int) (v : String),
      k ∉ cacheKeys c → cs ≤ c.length →
      updateCache cs c k v = c.tail ++ [(k, v)]) ∧
    (∀ (cs : Nat) (l : List (Int × String)), 1 ≤ cs →
      (l.map Prod.fst).Nodup →
      cacheKeys (l.foldl (fun acc p => updateCache cs acc p.1 p.2) []) =
        (l.map Prod.fst).drop (l.length - cs) ∧
      (cs ≤ l.length →
        (cacheKeys (l.foldl (fun acc p => updateCache cs acc p.1 p.2) [])).length
          = cs)) ∧
    (∀ (d : InternalMemoryDevice) (bn : Int) (data : String)
       (d' : InternalMemoryDevice),
      writeBlock d bn data false = some (d', true) →
      d'.cache = updateCache d.cache_size d.cache bn (data.take d.block_size)) ∧
    (∀ (d : InternalMemoryDevice) (bn : Int) (d' : InternalMemoryDevice)
       (x : String),
      readBlock d bn false = some (d', .storageRead x) →
      d'.cache = updateCache d.cache_size d.cache bn x) ∧
    (∀ (d : InternalMemoryDevice) (bn : Int) (d' : InternalMemoryDevice)
       (x : String),
      readBlock d bn false = some (d', .cacheHit x) →
      d'.cache = moveToEnd d.cache bn) := by
  refine ⟨updateCache_length_le, updateCache_getLast, ?_, ?_, ?_, ?_, ?_⟩
  · intro cs c k v hmem hfull
    rw [updateCache_fresh cs c k v hmem, if_pos hfull]
  · intro cs l hcs hnd
    have h := foldl_updateCache_keys cs hcs l [] (by simp [cacheKeys]) hnd
      (by simp [cacheKeys]) (by simp)
    simp only [cacheKeys, List.map_nil, List.nil_append, List.length_nil,
      Nat.zero_add] at h
    refine ⟨h, fun hle => ?_⟩
    simp only [cacheKeys]
    rw [h, List.length_drop, List.length_map]
    omega
  · intro d bn data d' hw
    simp only [writeBlock, Bool.false_eq_true, if_false] at hw
    by_cases h1 : (d.total_blocks : Int) ≤ bn
    · rw [if_pos h1] at hw
      simp at hw
    · rw [if_neg h1] at hw
      cases hst : pySet d.storage bn (data.take d.block_size) with
      | none => simp only [hst] at hw; exact Option.noConfusion hw
      | some st =>
        cases hbs : pySet d.block_state bn "used" with
        | none => simp only [hst, hbs] at hw; exact Option.noConfusion hw
        | some bs =>
          simp only [hst, hbs, Option.some.injEq, Prod.mk.injEq] at hw
          rw [← hw.1]
  · intro d bn d' x hr
    simp only [readBlock, Bool.false_eq_true, if_false] at hr
    by_cases h1 : (d.total_blocks : Int) ≤ bn
    · rw [if_pos h1] at hr
      simp at hr
    · rw [if_neg h1] at hr
      cases hc : cacheLookup d.cache bn with
      | some v =>
        simp only [hc, Option.some.injEq, Prod.mk.injEq] at hr
        exact ReadOutcome.noConfusion hr.2
      | none =>
        cases hg : pyGet d.storage bn with
        | none => simp only [hc, hg] at hr; exact Option.noConfusion hr
        | some data =>
          simp only [hc, hg, Option.some.injEq, Prod.mk.injEq,
            ReadOutcome.storageRead.injEq] at hr
          rw [← hr.1, hr.2]
  · intro d bn d' x hr
    simp only [readBlock, Bool.false_eq_true, if_false] at hr
    by_cases h1 : (d.total_blocks : Int) ≤ bn
    · rw [if_pos h1] at hr
      simp at hr
    · rw [if_neg h1] at hr
      cases hc : cacheLookup d.cache bn with
      | some v =>
        simp only [hc, Option.some.injEq, Prod.mk.injEq] at hr
        rw [← hr.1]
      | none =>
        cases hg : pyGet d.storage bn with
        | none => simp only [hc, hg] at hr; exact Option.noConfusion hr
        | some data =>
          simp only [hc, hg, Option.some.injEq, Prod.mk.injEq] at hr
          exact ReadOutcome.noConfusion hr.2

/-- Witness for C4: three distinct touches through a capacity-2 cache
leave exactly the two most recent keys. -/
theorem lru_cache_spec_witness :
    cacheKeys ([((1 : Int), "a"), (2, "b"), (3, "c")].foldl
        (fun acc p => updateCache 2 acc p.1 p.2) []) =
      ([((1 : Int), "a"), (2, "b"), (3, "c")].map Prod.fst).drop
        ([((1 : Int), "a"), (2, "b"), (3, "c")].length - 2) ∧
    (cacheKeys ([((1 : Int), "a"), (2, "b"), (3, "c")].foldl
        (fun acc p => updateCache 2 acc p.1 p.2) [])).length = 2 :=
  ⟨(lru_cache_spec.2.2.2.1 2 [((1 : Int), "a"), (2, "b"), (3, "c")]
      (by decide) (by decide)).1,
   (lru_cache_spec.2.2.2.1 2 [((1 : Int), "a"), (2, "b"), (3, "c")]
      (by decide) (by decide)).2 (by decide)⟩
